import Mathlib

/-!
Verification of the P02 discrete-time process scheduler simulator

Shallow embedding of `Assignments/P02` (scheduler, workload loader,
workload generator) and proofs about it.

The files `pkg/scheduler.py`, `main.py` and `gen_jobs/generate_jobs.py` are
in the source tree and are embedded directly from their code.  The helper
modules `pkg/clock.py`, `pkg/cpu.py`, `pkg/ioDevice.py` and `pkg/process.py`
are imported by the scheduler but are not in the source tree; the
definitions for those carry a doc comment starting with
`Modelled from the spec:` and follow the specification text
(sections 3 and 4.1 - 4.3).

Mutation in the Python code is modelled by explicit state passing: each
in-place update of the scheduler, of a CPU unit slot or of an I/O device
slot becomes a functional update of the `Scheduler` record, performed at
the same program point as in the source, so that event snapshots observe
the same intermediate states as the Python `_record` calls do.
-/

namespace P02

/-- A burst record: either `{cpu: n}` or `{io: {type, duration}}`
(scheduler.py treats bursts as dicts keyed by `cpu` or `io`). -/
inductive Burst where
  | cpu (n : Int)
  | ioBurst (ty : String) (duration : Int)
deriving DecidableEq, Repr

/-- Modelled from the spec: `pkg/process.py` is not in the source tree.
Per spec section 3, a process carries pid, arrival_time, priority,
quantum, remaining_quantum, the burst list, the cursor and a state tag.
The burst list stores the *remaining* counts: the CPU / I/O units
decrement the current burst record in place. -/
structure Process where
  pid : String
  arrival_time : Int
  priority : Int
  quantum : Int
  remaining_quantum : Int
  bursts : List Burst
  cursor : Nat
  state : String
deriving DecidableEq, Repr

/-- Modelled from the spec: `Process.current_burst()` returns the burst at
the cursor, or nothing when the cursor is past the end. -/
def current_burst (p : Process) : Option Burst :=
  p.bursts.get? p.cursor

/-- The remaining count stored in a burst record. -/
def burstRemaining : Burst → Int
  | Burst.cpu n => n
  | Burst.ioBurst _ d => d

/-- A burst record with its remaining count decremented by one. -/
def decBurst : Burst → Burst
  | Burst.cpu n => Burst.cpu (n - 1)
  | Burst.ioBurst t d => Burst.ioBurst t (d - 1)

/-- Modelled from the spec: `remaining_burst_time` is the sum of the
durations of all CPU bursts from the cursor onward, inclusive
(spec section 4.4 and glossary). -/
def remaining_burst_time (p : Process) : Int :=
  ((p.bursts.drop p.cursor).map (fun b =>
    match b with
    | Burst.cpu n => n
    | Burst.ioBurst _ _ => 0)).sum

/-- SJF key of a queued process: its current CPU burst length, or infinity
when the current burst is not a CPU burst or the process has no bursts
left (`burst.get("cpu", inf) if burst else inf`). -/
def keySJF (p : Process) : WithTop Int :=
  match current_burst p with
  | some (Burst.cpu n) => (n : WithTop Int)
  | some (Burst.ioBurst _ _) => ⊤
  | none => ⊤

/-- Modelled from the spec: `pkg/process.py` is not in the source tree.
Process construction (spec section 3): cursor starts at 0, state starts
as `new`, and `remaining_quantum` starts at `quantum`. -/
def mkProcess (pid : String) (bursts : List Burst) (priority : Int)
    (quantum : Int) (arrival_time : Int) : Process :=
  { pid := pid, arrival_time := arrival_time, priority := priority,
    quantum := quantum, remaining_quantum := quantum,
    bursts := bursts, cursor := 0, state := "new" }

/-- Modelled from the spec: `pkg/cpu.py` is not in the source tree.
A CPU unit holds an identifier and at most one process (spec 4.2). -/
structure CPU where
  cid : Nat
  current : Option Process
deriving DecidableEq, Repr

/-- Modelled from the spec: `CPU.tick()` decrements the current burst's
remaining count by one; if it reaches zero it advances the cursor, clears
`current` and returns the formerly-running process (spec 4.2).  A held
process whose cursor is already past the end is released immediately. -/
def CPU.tick (c : CPU) : CPU × Option Process :=
  match c.current with
  | none => (c, none)
  | some p =>
    match p.bursts.get? p.cursor with
    | none => ({ c with current := none }, some p)
    | some b =>
      let b' := decBurst b
      if burstRemaining b' ≤ 0 then
        ({ c with current := none },
         some { p with bursts := p.bursts.set p.cursor b', cursor := p.cursor + 1 })
      else
        ({ c with current := some { p with bursts := p.bursts.set p.cursor b' } }, none)

/-- Modelled from the spec: `CPU.assign(p)` places a process on an idle
unit; dispatch sets the process state to running (spec 4.5 step 6). -/
def CPU.assign (c : CPU) (p : Process) : CPU :=
  { c with current := some { p with state := "running" } }

/-- Modelled from the spec: `CPU.is_busy()` reports occupancy. -/
def CPU.is_busy (c : CPU) : Bool :=
  c.current.isSome

/-- Modelled from the spec: `pkg/ioDevice.py` is not in the source tree.
An I/O device is symmetric to the CPU unit (spec 4.3). -/
structure IODevice where
  did : Nat
  current : Option Process
deriving DecidableEq, Repr

/-- Modelled from the spec: `IODevice.tick()` is symmetric to `CPU.tick()`:
it decrements the current burst's duration and on completion advances the
cursor and returns the process (spec 4.3). -/
def IODevice.tick (d : IODevice) : IODevice × Option Process :=
  match d.current with
  | none => (d, none)
  | some p =>
    match p.bursts.get? p.cursor with
    | none => ({ d with current := none }, some p)
    | some b =>
      let b' := decBurst b
      if burstRemaining b' ≤ 0 then
        ({ d with current := none },
         some { p with bursts := p.bursts.set p.cursor b', cursor := p.cursor + 1 })
      else
        ({ d with current := some { p with bursts := p.bursts.set p.cursor b' } }, none)

/-- Modelled from the spec: `IODevice.assign(p)` places a process on an
idle device. -/
def IODevice.assign (d : IODevice) (p : Process) : IODevice :=
  { d with current := some p }

/-- Modelled from the spec: `IODevice.is_busy()` reports occupancy. -/
def IODevice.is_busy (d : IODevice) : Bool :=
  d.current.isSome

/-- One structured event record, as built by `Scheduler._record`
(scheduler.py lines 211-243).  The human-readable `event` text is
presentation only and is omitted; all structured fields are kept. -/
structure Event where
  time : Int
  event_type : String
  process : Option String
  device : Option String
  ready_queue : List String
  wait_queue : List String
  cpus : List (Option String)
  ios : List (Option String)
deriving DecidableEq, Repr

/-- The scheduler state (scheduler.py `__init__`).  The shared `Clock` is
inlined as the integer field `clock` (spec 4.1: a single monotone integer
counter). -/
structure Scheduler where
  clock : Int
  ready_queue : List Process
  wait_queue : List Process
  cpus : List CPU
  io_devices : List IODevice
  finished : List Process
  events : List Event
  future_processes : List Process
  algorithm : String
deriving DecidableEq, Repr

/-- `Scheduler.__init__(num_cpus, num_ios, algorithm)`. -/
def Scheduler.init (num_cpus num_ios : Nat) (algorithm : String) : Scheduler :=
  { clock := 0, ready_queue := [], wait_queue := [],
    cpus := (List.range num_cpus).map (fun i => { cid := i, current := none }),
    io_devices := (List.range num_ios).map (fun i => { did := i, current := none }),
    finished := [], events := [], future_processes := [], algorithm := algorithm }

/-! ## Queue primitives

`pyMinBy` models Python's `min(iterable, key=...)`: a left fold that keeps
the earlier element on ties, so the *first* element attaining the minimum
key is returned.  `insertSortedBy` models the position scan in
`_insert_into_ready_queue`: the scan advances past every element whose key
is not strictly greater than the new key (the loop breaks on
`key(process) < key(p)`), then inserts there.  `popMinBy` models the
min-scan selection branches of `_select_process_for_cpu`
(`min(...)` followed by `ready_queue.remove(...)`, which removes the
first occurrence). -/

/-- Python `min(x :: xs, key)`: fold keeping the accumulator on ties. -/
def pyMinBy {α K : Type} [LinearOrder K] (key : α → K) (x : α) (xs : List α) : α :=
  xs.foldl (fun b a => if key a < key b then a else b) x

/-- Position scan of `_insert_into_ready_queue` (scheduler.py 54-107):
`pos` counts the elements scanned before the first one whose key is
strictly greater than the new element's key; the new element is inserted
at `pos`. -/
def insertSortedBy {α K : Type} [LinearOrder K] (key : α → K) (q : List α) (p : α) :
    List α :=
  let pos := (q.takeWhile (fun x => !decide (key p < key x))).length
  q.take pos ++ p :: q.drop pos

/-- Recursive form of `insertSortedBy`, used for proofs. -/
def insertRec {α K : Type} [LinearOrder K] (key : α → K) (p : α) : List α → List α
  | [] => [p]
  | x :: xs => if key p < key x then p :: x :: xs else x :: insertRec key p xs

/-- Min-scan selection: `min(queue, key=...)` then `queue.remove(...)`. -/
def popMinBy {α K : Type} [DecidableEq α] [LinearOrder K] (key : α → K)
    (q : List α) : Option (α × List α) :=
  match q with
  | [] => none
  | x :: xs =>
    let m := pyMinBy key x xs
    some (m, (x :: xs).erase m)

/-! ## Ready-queue discipline (scheduler.py 54-168) -/

/-- `Scheduler._insert_into_ready_queue` (scheduler.py 54-107): policy
dependent sorted insertion; the comparison is strict, so the new process
lands after every already-queued process with an equal key.  `RR` and
unknown algorithms append at the tail. -/
def insertIntoReadyQueue (algorithm : String) (q : List Process) (p : Process) :
    List Process :=
  if algorithm = "FCFS" then
    insertSortedBy (fun pr => pr.arrival_time) q p
  else if algorithm = "SJF" then
    insertSortedBy keySJF q p
  else if algorithm = "SRTF" then
    insertSortedBy remaining_burst_time q p
  else if algorithm = "Priority" ∨ algorithm = "PriorityPreemptive" then
    insertSortedBy (fun pr => pr.priority) q p
  else
    q ++ [p]

/-- `Scheduler._select_process_for_cpu` (scheduler.py 109-168): FCFS and
RR pop the head; SJF / SRTF / Priority / PriorityPreemptive scan for the
minimum-key process (Python `min`, first occurrence on ties) and remove
it; unknown algorithms default to popping the head. -/
def selectProcessForCPU (algorithm : String) (q : List Process) :
    Option (Process × List Process) :=
  match q with
  | [] => none
  | x :: xs =>
    if algorithm = "FCFS" then some (x, xs)
    else if algorithm = "SJF" then popMinBy keySJF (x :: xs)
    else if algorithm = "SRTF" then popMinBy remaining_burst_time (x :: xs)
    else if algorithm = "Priority" then popMinBy (fun p => p.priority) (x :: xs)
    else if algorithm = "PriorityPreemptive" then popMinBy (fun p => p.priority) (x :: xs)
    else some (x, xs)

/-! ## Event recording and state helpers -/

/-- `Scheduler._record` (scheduler.py 211-243): append one structured
event carrying the current clock and pid snapshots of both queues and of
every CPU / I/O slot. -/
def recordEvent (s : Scheduler) (event_type : String) (proc : Option String)
    (device : Option String) : Scheduler :=
  { s with events := s.events ++ [{
      time := s.clock,
      event_type := event_type,
      process := proc,
      device := device,
      ready_queue := s.ready_queue.map Process.pid,
      wait_queue := s.wait_queue.map Process.pid,
      cpus := s.cpus.map (fun c => c.current.map Process.pid),
      ios := s.io_devices.map (fun d => d.current.map Process.pid) }] }

/-- Write back CPU slot `i` (models in-place mutation of `self.cpus[i]`). -/
def setCPU (s : Scheduler) (i : Nat) (c : CPU) : Scheduler :=
  { s with cpus := s.cpus.set i c }

/-- Write back I/O slot `i` (models in-place mutation of a device). -/
def setIODev (s : Scheduler) (i : Nat) (d : IODevice) : Scheduler :=
  { s with io_devices := s.io_devices.set i d }

/-- Device label `f"CPU{cid}"`. -/
def cpuDeviceName (i : Nat) : String :=
  "CPU" ++ toString i

/-- Device label `f"IO{did}"`. -/
def ioDeviceName (i : Nat) : String :=
  "IO" ++ toString i

/-! ## add_process and arrivals -/

/-- Stable insertion used to model Python's stable
`future_processes.sort(key=lambda p: p.arrival_time)`: the sort below
inserts earlier-listed elements last, so an element passes only the
strictly smaller ones and lands in front of equal arrival times,
preserving the original relative order of ties. -/
def insertArrival (p : Process) : List Process → List Process
  | [] => [p]
  | x :: xs =>
    if x.arrival_time < p.arrival_time then
      x :: insertArrival p xs
    else
      p :: x :: xs

/-- Stable sort by arrival time (insertion sort; agrees with Python's
stable `list.sort`). -/
def sortByArrival : List Process → List Process
  | [] => []
  | x :: xs => insertArrival x (sortByArrival xs)

/-- `Scheduler.add_process` (scheduler.py 174-197): an already-arrived
process goes to the ready queue (state `ready`, `enqueue` event); a
future process is appended to `future_processes`, which is then re-sorted
by arrival time. -/
def add_process (s : Scheduler) (p : Process) : Scheduler :=
  if p.arrival_time ≤ s.clock then
    let p' := { p with state := "ready" }
    recordEvent
      { s with ready_queue := insertIntoReadyQueue s.algorithm s.ready_queue p' }
      "enqueue" (some p'.pid) none
  else
    { s with future_processes := sortByArrival (s.future_processes ++ [p]) }

/-- Step phase 1 (scheduler.py 265-279): move every future process with
`arrival_time ≤ now` to the ready queue (in list order), then record one
`arrival` event per moved process (the snapshots are taken after all the
insertions, as in the source where the recording loop is separate). -/
def admitArrivals (s : Scheduler) : Scheduler :=
  let arrived := s.future_processes.filter (fun p => decide (p.arrival_time ≤ s.clock))
  let s1 := { s with
    future_processes :=
      s.future_processes.filter (fun p => !decide (p.arrival_time ≤ s.clock)),
    ready_queue := arrived.foldl
      (fun q p => insertIntoReadyQueue s.algorithm q { p with state := "ready" })
      s.ready_queue }
  arrived.foldl (fun st p => recordEvent st "arrival" (some p.pid) none) s1

/-! ## The per-CPU part of `Scheduler.step` (scheduler.py 281-376)

The Python loop body mutates `cpu`, the queues and the event list in
place.  Here the body is split into named pieces applied to CPU slot `i`:
`CPU.tick`, then `quantumPreemptCore` (the RR quantum branch, lines
285-300, and the SRTF / PriorityPreemptive branch, lines 302-338), then
`routeCompletion` (the burst-completion routing, lines 340-376). -/

/-- Quantum handling and preemptive-policy handling for CPU slot `i`,
whose post-tick value is `c` (scheduler.py 285-338).

Under `RR`, when the CPU still holds a process, its `remaining_quantum`
is decremented; if it drops to 0 or below while the process still has
positive `remaining_burst_time`, the CPU is cleared, the quantum is reset
and the process re-enters the ready queue (tail position for RR), with a
`preempted` event.

Otherwise, under `SRTF` / `PriorityPreemptive`, when the CPU still holds
a process and the ready queue is non-empty, the minimum-key ready process
is compared against the running one; on a strict improvement the running
process is pushed back into the ready queue and a fresh selection is
dispatched onto this same CPU, with a `preempted` event. -/
def quantumPreemptCore (s : Scheduler) (i : Nat) (c : CPU) : Scheduler :=
  if s.algorithm = "RR" then
    match c.current with
    | none => s
    | some cur =>
      let cur' := { cur with remaining_quantum := cur.remaining_quantum - 1 }
      if cur'.remaining_quantum ≤ 0 ∧ 0 < remaining_burst_time cur' then
        let prem := { cur' with state := "ready", remaining_quantum := cur'.quantum }
        let s1 := setCPU s i { c with current := none }
        let s2 := { s1 with
          ready_queue := insertIntoReadyQueue s1.algorithm s1.ready_queue prem }
        recordEvent s2 "preempted" (some prem.pid) (some (cpuDeviceName c.cid))
      else
        setCPU s i { c with current := some cur' }
  else
    match c.current with
    | none => s
    | some cur =>
      match s.ready_queue with
      | [] => s
      | x :: xs =>
        if s.algorithm = "SRTF" then
          let shortest_ready := pyMinBy remaining_burst_time x xs
          if remaining_burst_time shortest_ready < remaining_burst_time cur then
            let s1 := setCPU s i { c with current := none }
            let curR := { cur with state := "ready" }
            let s2 := { s1 with
              ready_queue := insertIntoReadyQueue s1.algorithm s1.ready_queue curR }
            match selectProcessForCPU s2.algorithm s2.ready_queue with
            | none => s2
            | some (new_proc, q') =>
              let s3 := { s2 with ready_queue := q' }
              let s4 := setCPU s3 i (CPU.assign { c with current := none } new_proc)
              recordEvent s4 "preempted" (some cur.pid) (some (cpuDeviceName c.cid))
          else s
        else if s.algorithm = "PriorityPreemptive" then
          let highest_ready := pyMinBy (fun p => p.priority) x xs
          if highest_ready.priority < cur.priority then
            let s1 := setCPU s i { c with current := none }
            let curR := { cur with state := "ready" }
            let s2 := { s1 with
              ready_queue := insertIntoReadyQueue s1.algorithm s1.ready_queue curR }
            match selectProcessForCPU s2.algorithm s2.ready_queue with
            | none => s2
            | some (new_proc, q') =>
              let s3 := { s2 with ready_queue := q' }
              let s4 := setCPU s3 i (CPU.assign { c with current := none } new_proc)
              recordEvent s4 "preempted" (some cur.pid) (some (cpuDeviceName c.cid))
          else s
        else s

/-- Burst-completion routing for a process returned by `CPU.tick`
(scheduler.py 340-376): no burst left → finished; next burst is I/O →
tail of the wait queue; next burst is CPU → back into the ready queue. -/
def routeCompletion (s : Scheduler) (cid : Nat) : Option Process → Scheduler
  | none => s
  | some proc =>
    match current_burst proc with
    | none =>
      recordEvent { s with finished := s.finished ++ [{ proc with state := "finished" }] }
        "finished" (some proc.pid) (some (cpuDeviceName cid))
    | some (Burst.ioBurst _ _) =>
      recordEvent { s with wait_queue := s.wait_queue ++ [{ proc with state := "waiting" }] }
        "cpu_to_io" (some proc.pid) (some (cpuDeviceName cid))
    | some (Burst.cpu _) =>
      recordEvent { s with
          ready_queue := insertIntoReadyQueue s.algorithm s.ready_queue
            { proc with state := "ready" } }
        "cpu_to_ready" (some proc.pid) (some (cpuDeviceName cid))

/-- One iteration of the CPU loop of `Scheduler.step` on slot `i`. -/
def tickCPUAt (s : Scheduler) (i : Nat) : Scheduler :=
  match s.cpus.get? i with
  | none => s
  | some c =>
    let t := CPU.tick c
    let s1 := setCPU s i t.1
    let s2 := quantumPreemptCore s1 i t.1
    routeCompletion s2 c.cid t.2

/-- One iteration of the I/O loop of `Scheduler.step` on slot `i`
(scheduler.py 378-406): tick the device; a completed process with no
burst left is finished, otherwise it re-enters the ready queue. -/
def tickIOAt (s : Scheduler) (i : Nat) : Scheduler :=
  match s.io_devices.get? i with
  | none => s
  | some d =>
    let t := IODevice.tick d
    let s1 := setIODev s i t.1
    match t.2 with
    | none => s1
    | some proc =>
      match current_burst proc with
      | none =>
        recordEvent
          { s1 with finished := s1.finished ++ [{ proc with state := "finished" }] }
          "finished" (some proc.pid) (some (ioDeviceName d.did))
      | some _ =>
        recordEvent
          { s1 with ready_queue :=
              insertIntoReadyQueue s1.algorithm s1.ready_queue { proc with state := "ready" } }
          "io_to_ready" (some proc.pid) (some (ioDeviceName d.did))

/-- One iteration of the CPU dispatch loop of `Scheduler.step` on slot
`i` (scheduler.py 408-418): an idle CPU takes the policy's selection from
a non-empty ready queue.  The selected process's fields — in particular
`remaining_quantum` — are not modified by the dispatch. -/
def dispatchCPUAt (s : Scheduler) (i : Nat) : Scheduler :=
  match s.cpus.get? i with
  | none => s
  | some c =>
    if c.is_busy then s
    else
      match selectProcessForCPU s.algorithm s.ready_queue with
      | none => s
      | some (proc, q') =>
        let s1 := { s with ready_queue := q' }
        let s2 := setCPU s1 i (CPU.assign c proc)
        recordEvent s2 "dispatch_cpu" (some proc.pid) (some (cpuDeviceName c.cid))

/-- One iteration of the I/O dispatch loop of `Scheduler.step` on slot
`i` (scheduler.py 420-430): an idle device pops the head of the wait
queue (FIFO regardless of the CPU policy). -/
def dispatchIOAt (s : Scheduler) (i : Nat) : Scheduler :=
  match s.io_devices.get? i with
  | none => s
  | some d =>
    if d.is_busy then s
    else
      match s.wait_queue with
      | [] => s
      | proc :: rest =>
        let s1 := { s with wait_queue := rest }
        let s2 := setIODev s1 i (IODevice.assign d proc)
        recordEvent s2 "dispatch_io" (some proc.pid) (some (ioDeviceName d.did))

/-- `Scheduler.step` (scheduler.py 260-434): admit arrivals, tick every
CPU (with quantum / preemption handling and completion routing), tick
every I/O device, dispatch idle CPUs, dispatch idle I/O devices, then
advance the clock by one. -/
def step (s : Scheduler) : Scheduler :=
  let s1 := admitArrivals s
  let s2 := (List.range s1.cpus.length).foldl tickCPUAt s1
  let s3 := (List.range s2.io_devices.length).foldl tickIOAt s2
  let s4 := (List.range s3.cpus.length).foldl dispatchCPUAt s3
  let s5 := (List.range s4.io_devices.length).foldl dispatchIOAt s4
  { s5 with clock := s5.clock + 1 }

/-- The loop condition of `Scheduler.run` (scheduler.py 444-449): the
ready queue, the wait queue, a busy CPU or a busy I/O device keep the
loop going.  The `future_processes` list is *not* part of this test. -/
def runCond (s : Scheduler) : Bool :=
  !s.ready_queue.isEmpty || !s.wait_queue.isEmpty ||
    s.cpus.any CPU.is_busy || s.io_devices.any IODevice.is_busy

/-- `Scheduler.run` (scheduler.py 436-450), its unbounded `while` loop
modelled with explicit fuel: step while `runCond` holds. -/
def run (fuel : Nat) (s : Scheduler) : Scheduler :=
  match fuel with
  | 0 => s
  | fuel + 1 => if runCond s then run fuel (step s) else s

/-- Iterated `step`, for inspecting intermediate states of a run. -/
def stepN (n : Nat) (s : Scheduler) : Scheduler :=
  match n with
  | 0 => s
  | n + 1 => stepN n (step s)

/-- Build a scheduler, add all processes, then run it — the flow of
`main.py` (construct, `add_process` each, run to quiescence). -/
def mkRun (fuel num_cpus num_ios : Nat) (algorithm : String)
    (ps : List Process) : Scheduler :=
  run fuel (ps.foldl add_process (Scheduler.init num_cpus num_ios algorithm))

/-! ## Workload loader (main.py 36-82)

`load_processes_from_json` is modelled from the point where the JSON
array has been parsed: each element is a `RawRec`.  A burst dict with
neither a `cpu` nor an `io` key is represented by `RawBurst.unrecognized`
(the burst-copy loop silently skips it).  The `p.get(...)` defaults of
the source are the callers' concern here: a `RawRec` carries the values
the `Process` constructor ends up receiving. -/

/-- One element of a record's `bursts` array. -/
inductive RawBurst where
  | cpu (n : Int)
  | ioRaw (ty : String) (duration : Int)
  | unrecognized
deriving DecidableEq, Repr

/-- One parsed process record of the workload JSON. -/
structure RawRec where
  pid : String
  priority : Int
  quantum : Int
  arrival_time : Int
  bursts : List RawBurst
deriving DecidableEq, Repr

/-- The burst-copy loop of `load_processes_from_json` (main.py 64-71):
`cpu` and `io` bursts are copied, anything else is skipped. -/
def convertBurst : RawBurst → Option Burst
  | RawBurst.cpu n => some (Burst.cpu n)
  | RawBurst.ioRaw ty d => some (Burst.ioBurst ty d)
  | RawBurst.unrecognized => none

/-- `load_processes_from_json` after JSON parsing (main.py 59-82): clamp
the limit to the data length, then turn every record up to the limit into
a `Process`.  No record is rejected. -/
def load_processes_from_json (data : List RawRec) (limit : Option Nat) :
    List Process :=
  let lim := match limit with
    | none => data.length
    | some l => if data.length < l then data.length else l
  (data.take lim).map (fun r =>
    mkProcess r.pid (r.bursts.filterMap convertBurst) r.priority r.quantum r.arrival_time)

/-! ## Workload generator (gen_jobs/generate_jobs.py 225-245)

Only the arrival-time assignment and the final sort of
`generate_processes` are in scope (claims about the per-process body
generation would need the PRNG; the already-generated records are taken
as input).  The Gaussian draws of `random.gauss(spacing, spacing * 0.3)`
are supplied as a stream of rational samples. -/

/-- A generated process record, reduced to the fields the arrival loop
touches. -/
structure GenProc where
  pid : String
  arrival_time : Int
deriving DecidableEq, Repr

/-- Python `int(...)` on a float: truncation toward zero. -/
def pyInt (q : ℚ) : Int :=
  if q < 0 then ⌈q⌉ else ⌊q⌋

/-- The arrival loop of `generate_processes` (generate_jobs.py 226-240):
process `i` receives the current cumulative time, then the time advances
by `max(0, int(gauss(...)))` — the sample for process `i` is drawn after
its arrival is assigned. -/
def assignArrivals (samples : Nat → ℚ) : List GenProc → Nat → Int → List GenProc
  | [], _, _ => []
  | p :: ps, i, t =>
    { p with arrival_time := t } ::
      assignArrivals samples ps (i + 1) (t + max 0 (pyInt (samples i)))

/-- Stable insertion by arrival time for `GenProc` (ties keep the
element inserted later — i.e. the earlier-listed one — in front). -/
def insertGen (p : GenProc) : List GenProc → List GenProc
  | [] => [p]
  | x :: xs =>
    if x.arrival_time < p.arrival_time then
      x :: insertGen p xs
    else
      p :: x :: xs

/-- Stable sort by arrival time, modelling the stable
`processes.sort(key=lambda p: p["arrival_time"])`. -/
def sortGen : List GenProc → List GenProc
  | [] => []
  | x :: xs => insertGen x (sortGen xs)

/-- The arrival-time part of `generate_processes`
(generate_jobs.py 225-245): assign cumulative arrivals starting from 0,
then sort ascending by arrival time. -/
def generate_processes (samples : Nat → ℚ) (ps : List GenProc) : List GenProc :=
  sortGen (assignArrivals samples ps 0 0)

/-- The same procedure as the spec words it (spec section 4.6 item 6):
each gap is `round(Gaussian(...))` — rounding, not truncating — clamped
to be non-negative.  Kept for comparison against `generate_processes`. -/
def assignArrivalsSpec (samples : Nat → ℚ) : List GenProc → Nat → Int → List GenProc
  | [], _, _ => []
  | p :: ps, i, t =>
    { p with arrival_time := t } ::
      assignArrivalsSpec samples ps (i + 1) (t + max 0 (round (samples i)))

/-- Spec-worded variant of `generate_processes` (round instead of
truncate). -/
def generate_processes_spec (samples : Nat → ℚ) (ps : List GenProc) : List GenProc :=
  sortGen (assignArrivalsSpec samples ps 0 0)

/-! ## Lemmas about the queue primitives -/

theorem insertSortedBy_eq_insertRec {α K : Type} [LinearOrder K]
    (key : α → K) (q : List α) (p : α) :
    insertSortedBy key q p = insertRec key p q := by
  induction q with
  | nil => rfl
  | cons x xs ih =>
    by_cases h : key p < key x
    · simp [insertSortedBy, insertRec, List.takeWhile_cons, h]
    · simp only [insertRec, if_neg h]
      rw [← ih]
      simp [insertSortedBy, List.takeWhile_cons, h]

theorem mem_insertRec {α K : Type} [LinearOrder K] (key : α → K) (p b : α) :
    ∀ q : List α, b ∈ insertRec key p q ↔ b = p ∨ b ∈ q := by
  intro q
  induction q with
  | nil => simp [insertRec]
  | cons x xs ih =>
    by_cases h : key p < key x
    · simp [insertRec, h]
    · simp only [insertRec, if_neg h, List.mem_cons, ih]
      tauto

theorem insertRec_ne_nil {α K : Type} [LinearOrder K] (key : α → K) (p : α)
    (q : List α) : insertRec key p q ≠ [] := by
  cases q with
  | nil => simp [insertRec]
  | cons x xs =>
    by_cases h : key p < key x <;> simp [insertRec, h]

theorem pyMinBy_mem {α K : Type} [LinearOrder K] (key : α → K) (xs : List α) :
    ∀ x : α, pyMinBy key x xs ∈ x :: xs := by
  induction xs with
  | nil => intro x; simp [pyMinBy]
  | cons a l ih =>
    intro x
    have h := ih (if key a < key x then a else x)
    simp only [pyMinBy, List.foldl_cons] at h ⊢
    by_cases hc : key a < key x <;> simp only [if_pos, if_neg, hc, if_true, if_false] at h ⊢ <;>
      rcases List.mem_cons.1 h with h1 | h1 <;> simp [h1]

theorem pyMinBy_le {α K : Type} [LinearOrder K] (key : α → K) (xs : List α) :
    ∀ x : α, ∀ y ∈ x :: xs, key (pyMinBy key x xs) ≤ key y := by
  induction xs with
  | nil =>
    intro x y hy
    rcases List.mem_cons.1 hy with rfl | h
    · simp [pyMinBy]
    · simp at h
  | cons a l ih =>
    intro x y hy
    have hacc : key (pyMinBy key (if key a < key x then a else x) l) ≤
        key (if key a < key x then a else x) :=
      ih _ _ (List.mem_cons_self _ _)
    have hxa : key (if key a < key x then a else x) ≤ key x := by
      by_cases hc : key a < key x <;> simp [hc, le_of_lt]
    have haa : key (if key a < key x then a else x) ≤ key a := by
      by_cases hc : key a < key x <;> simp [hc, le_of_not_lt]
    rcases List.mem_cons.1 hy with rfl | hy'
    · exact le_trans hacc hxa
    rcases List.mem_cons.1 hy' with rfl | hy''
    · exact le_trans hacc haa
    · exact ih _ _ (List.mem_cons_of_mem _ hy'')

theorem pyMinBy_head {α K : Type} [LinearOrder K] (key : α → K) (xs : List α) :
    ∀ x : α, (∀ a ∈ xs, ¬ key a < key x) → pyMinBy key x xs = x := by
  induction xs with
  | nil => intro x _; rfl
  | cons a l ih =>
    intro x h
    have ha : ¬ key a < key x := h a (List.mem_cons_self _ _)
    simp only [pyMinBy, List.foldl_cons, if_neg ha]
    exact ih x (fun b hb => h b (List.mem_cons_of_mem _ hb))

theorem pyMinBy_congr {α K : Type} [LinearOrder K] (key : α → K) (xs : List α) :
    ∀ x y : α, (∃ el ∈ xs, key el < key x ∧ key el < key y) →
      pyMinBy key x xs = pyMinBy key y xs := by
  induction xs with
  | nil => intro x y h; simp at h
  | cons b bs ih =>
    intro x y h
    obtain ⟨el, hel, h1, h2⟩ := h
    simp only [pyMinBy, List.foldl_cons]
    by_cases hbx : key b < key x <;> by_cases hby : key b < key y
    · simp [hbx, hby]
    · rcases List.mem_cons.1 hel with rfl | hel'
      · exact absurd h2 hby
      · simp only [if_pos hbx, if_neg hby]
        exact ih b y ⟨el, hel', lt_of_lt_of_le h2 (le_of_not_lt hby), h2⟩
    · rcases List.mem_cons.1 hel with rfl | hel'
      · exact absurd h1 hbx
      · simp only [if_neg hbx, if_pos hby]
        exact ih x b ⟨el, hel', h1, lt_of_lt_of_le h1 (le_of_not_lt hbx)⟩
    · rcases List.mem_cons.1 hel with rfl | hel'
      · exact absurd h1 hbx
      · simp only [if_neg hbx, if_neg hby]
        exact ih x y ⟨el, hel', h1, h2⟩

theorem pyMinBy_insertRec {α K : Type} [LinearOrder K] (key : α → K) (xs : List α) :
    ∀ x c : α, key (pyMinBy key x xs) < key c →
      pyMinBy key x (insertRec key c xs) = pyMinBy key x xs := by
  induction xs with
  | nil =>
    intro x c h
    simp only [pyMinBy, List.foldl_nil] at h
    simp only [insertRec, pyMinBy, List.foldl_cons, List.foldl_nil,
      if_neg (not_lt.mpr (le_of_lt h))]
  | cons b bs ih =>
    intro x c h
    simp only [insertRec]
    by_cases hcb : key c < key b
    · simp only [if_pos hcb]
      by_cases hcx : key c < key x
      · -- the accumulator is beaten by `c`, but the true minimum beats both
        have hmem : pyMinBy key x (b :: bs) ∈ x :: b :: bs := pyMinBy_mem key _ x
        have hne : pyMinBy key x (b :: bs) ≠ x := by
          intro he
          rw [he] at h
          exact absurd (lt_trans h hcx) (lt_irrefl _)
        have hmem' : pyMinBy key x (b :: bs) ∈ b :: bs := by
          rcases List.mem_cons.1 hmem with he | hm
          · exact absurd he hne
          · exact hm
        have := pyMinBy_congr key (b :: bs) c x
          ⟨pyMinBy key x (b :: bs), hmem', h, lt_trans h hcx⟩
        simp only [pyMinBy, List.foldl_cons] at this ⊢
        simp only [if_pos hcx]
        exact this
      · simp only [pyMinBy, List.foldl_cons, if_neg hcx]
    · simp only [if_neg hcb]
      have h' : key (pyMinBy key (if key b < key x then b else x) bs) < key c := by
        simp only [pyMinBy, List.foldl_cons] at h
        exact h
      have := ih (if key b < key x then b else x) c h'
      simp only [pyMinBy, List.foldl_cons] at this ⊢
      exact this

theorem popMinBy_insertRec {α K : Type} [DecidableEq α] [LinearOrder K]
    (key : α → K) (x c : α) (xs : List α)
    (h : key (pyMinBy key x xs) < key c) :
    popMinBy key (insertRec key c (x :: xs)) =
      some (pyMinBy key x xs,
        (insertRec key c (x :: xs)).erase (pyMinBy key x xs)) := by
  simp only [insertRec]
  by_cases hcx : key c < key x
  · simp only [if_pos hcx, popMinBy]
    have hmem : pyMinBy key x xs ∈ x :: xs := pyMinBy_mem key xs x
    have hne : pyMinBy key x xs ≠ x := by
      intro he
      rw [he] at h
      exact absurd (lt_trans h hcx) (lt_irrefl _)
    have hmem' : pyMinBy key x xs ∈ xs := by
      rcases List.mem_cons.1 hmem with he | hm
      · exact absurd he hne
      · exact hm
    have hmin : pyMinBy key c (x :: xs) = pyMinBy key x xs := by
      have hstep : pyMinBy key c (x :: xs) = pyMinBy key c xs := by
        simp only [pyMinBy, List.foldl_cons, if_neg (not_lt.mpr (le_of_lt hcx))]
      rw [hstep]
      exact pyMinBy_congr key xs c x ⟨pyMinBy key x xs, hmem', h, lt_trans h hcx⟩
    rw [hmin]
  · simp only [if_neg hcx, popMinBy]
    rw [pyMinBy_insertRec key xs x c h]

theorem insertRec_sorted {α K : Type} [LinearOrder K] (key : α → K) (p : α)
    (q : List α) (h : q.Sorted (fun a b => key a ≤ key b)) :
    (insertRec key p q).Sorted (fun a b => key a ≤ key b) := by
  induction q with
  | nil => simp [insertRec]
  | cons x xs ih =>
    obtain ⟨hx, hxs⟩ := List.sorted_cons.mp h
    by_cases hc : key p < key x
    · simp only [insertRec, if_pos hc]
      refine List.sorted_cons.mpr ⟨?_, h⟩
      intro b hb
      rcases List.mem_cons.1 hb with rfl | hb'
      · exact le_of_lt hc
      · exact le_trans (le_of_lt hc) (hx b hb')
    · simp only [insertRec, if_neg hc]
      refine List.sorted_cons.mpr ⟨?_, ih hxs⟩
      intro b hb
      rcases (mem_insertRec key p b xs).1 hb with rfl | hb'
      · exact le_of_not_lt hc
      · exact hx b hb'

theorem insertRec_eq_filter {α K : Type} [LinearOrder K] (key : α → K) (p : α)
    (q : List α) (h : q.Sorted (fun a b => key a ≤ key b)) :
    insertRec key p q =
      q.filter (fun x => decide (key x ≤ key p)) ++
        p :: q.filter (fun x => decide (key p < key x)) := by
  induction q with
  | nil => simp [insertRec]
  | cons x xs ih =>
    obtain ⟨hx, hxs⟩ := List.sorted_cons.mp h
    by_cases hc : key p < key x
    · have h1 : xs.filter (fun a => decide (key a ≤ key p)) = [] := by
        refine List.filter_eq_nil_iff.mpr ?_
        intro a ha
        simp only [decide_eq_true_eq]
        exact not_le.mpr (lt_of_lt_of_le hc (hx a ha))
      have h2 : xs.filter (fun a => decide (key p < key a)) = xs := by
        refine List.filter_eq_self.mpr ?_
        intro a ha
        simp only [decide_eq_true_eq]
        exact lt_of_lt_of_le hc (hx a ha)
      simp [insertRec, hc, h1, h2, not_le.mpr hc]
    · have hxp : key x ≤ key p := le_of_not_lt hc
      simp [insertRec, hc, hxp, not_lt.mpr hxp, ih hxs]

theorem popMinBy_sorted {α K : Type} [DecidableEq α] [LinearOrder K]
    (key : α → K) (x : α) (xs : List α)
    (h : (x :: xs).Sorted (fun a b => key a ≤ key b)) :
    popMinBy key (x :: xs) = some (x, xs) := by
  have hx : ∀ a ∈ xs, key x ≤ key a := (List.sorted_cons.mp h).1
  have hmin : pyMinBy key x xs = x :=
    pyMinBy_head key xs x (fun a ha => not_lt.mpr (hx a ha))
  simp [popMinBy, hmin]

/-! ## Run-loop and generator lemmas -/

theorem run_eq_self (fuel : Nat) (s : Scheduler) (h : runCond s = false) :
    run fuel s = s := by
  cases fuel <;> simp [run, h]

theorem mem_insertGen (p b : GenProc) :
    ∀ l : List GenProc, b ∈ insertGen p l ↔ b = p ∨ b ∈ l := by
  intro l
  induction l with
  | nil => simp [insertGen]
  | cons x xs ih =>
    by_cases h : x.arrival_time < p.arrival_time
    · simp only [insertGen, if_pos h, List.mem_cons, ih]
      tauto
    · simp [insertGen, if_neg h]

theorem mem_sortGen (b : GenProc) :
    ∀ l : List GenProc, b ∈ sortGen l ↔ b ∈ l := by
  intro l
  induction l with
  | nil => simp [sortGen]
  | cons x xs ih => simp [sortGen, mem_insertGen, ih]

theorem insertGen_sorted (p : GenProc) (l : List GenProc)
    (h : l.Sorted (fun a b => a.arrival_time ≤ b.arrival_time)) :
    (insertGen p l).Sorted (fun a b => a.arrival_time ≤ b.arrival_time) := by
  induction l with
  | nil => simp [insertGen]
  | cons x xs ih =>
    obtain ⟨hx, hxs⟩ := List.sorted_cons.mp h
    by_cases hc : x.arrival_time < p.arrival_time
    · simp only [insertGen, if_pos hc]
      refine List.sorted_cons.mpr ⟨?_, ih hxs⟩
      intro b hb
      rcases (mem_insertGen p b xs).1 hb with rfl | hb'
      · exact le_of_lt hc
      · exact hx b hb'
    · simp only [insertGen, if_neg hc]
      refine List.sorted_cons.mpr ⟨?_, h⟩
      intro b hb
      rcases List.mem_cons.1 hb with rfl | hb'
      · exact le_of_not_lt hc
      · exact le_trans (le_of_not_lt hc) (hx b hb')

theorem sortGen_sorted (l : List GenProc) :
    (sortGen l).Sorted (fun a b => a.arrival_time ≤ b.arrival_time) := by
  induction l with
  | nil => simp [sortGen]
  | cons x xs ih => exact insertGen_sorted x (sortGen xs) ih

/-- The cumulative arrival gap: the sum of `max(0, int(sample))` over the
first `k` samples starting at index `i`. -/
def gapSum (samples : Nat → ℚ) (i k : Nat) : Int :=
  ((List.range k).map (fun j => max 0 (pyInt (samples (i + j))))).sum

theorem gapSum_zero (samples : Nat → ℚ) (i : Nat) : gapSum samples i 0 = 0 := rfl

theorem gapSum_succ (samples : Nat → ℚ) (i k : Nat) :
    gapSum samples i (k + 1) =
      max 0 (pyInt (samples i)) + gapSum samples (i + 1) k := by
  simp only [gapSum, List.range_succ_eq_map, List.map_cons, List.map_map, List.sum_cons,
    Nat.add_zero]
  congr 1
  refine congrArg _ (List.map_congr_left ?_)
  intro j _
  have harg : i + Nat.succ j = i + 1 + j := by omega
  simp only [Function.comp_apply, harg]

theorem assignArrivals_map (samples : Nat → ℚ) :
    ∀ (ps : List GenProc) (i : Nat) (t : Int),
      (assignArrivals samples ps i t).map GenProc.arrival_time =
        (List.range ps.length).map (fun k => t + gapSum samples i k) := by
  intro ps
  induction ps with
  | nil => intro i t; rfl
  | cons p ps ih =>
    intro i t
    simp only [assignArrivals, List.map_cons, List.length_cons, List.range_succ_eq_map,
      List.map_map, ih]
    refine congrArg₂ _ ?_ ?_
    · simp [gapSum_zero]
    · apply List.map_congr_left
      intro k _
      simp only [Function.comp_apply]
      rw [gapSum_succ]
      ring

/-! ## Concrete fixtures for the claims -/

/-- C1 failing input: a single process whose arrival time is strictly in
the future, so `add_process` parks it in `future_processes`. -/
def c1P : Process := mkProcess "P1" [Burst.cpu 1] 0 4 1

/-- FCFS scheduler with 1 CPU and 1 I/O device holding only `c1P`. -/
def c1Init : Scheduler := add_process (Scheduler.init 1 1 "FCFS") c1P

/-- Scenario S1: P1 with arrival 0 and one CPU burst of 3. -/
def c2P1 : Process := mkProcess "P1" [Burst.cpu 3] 0 4 0

/-- Scenario S1: P2 with arrival 1 and one CPU burst of 2. -/
def c2P2 : Process := mkProcess "P2" [Burst.cpu 2] 0 4 1

/-- FCFS scheduler with 1 CPU and 1 I/O device holding `c2P1`, `c2P2`. -/
def c2Init : Scheduler := add_process (add_process (Scheduler.init 1 1 "FCFS") c2P1) c2P2

/-- The S1 run, with fuel far beyond quiescence. -/
def c2Run : Scheduler := run 50 c2Init

/-- RR fixture: quantum 3, two CPU bursts of 2 separated by nothing, so
the process is re-dispatched mid-quantum after its first burst. -/
def c5P : Process := mkProcess "P1" [Burst.cpu 2, Burst.cpu 2] 0 3 0

/-- RR scheduler with 1 CPU and 1 I/O device holding `c5P`. -/
def c5Init : Scheduler := add_process (Scheduler.init 1 1 "RR") c5P

/-! ## Claims -/

/-- C1: the spec demands that `Scheduler.run` keep stepping while the
future-arrivals list is non-empty, and that no process remain
unsimulated when it returns.  The code's loop condition
(scheduler.py 444-449) never consults `future_processes`: on a
configuration whose only process arrives at time 1, `run` returns
immediately at clock 0 with the process still unsimulated, for any
amount of fuel. -/
theorem c1_run_ignores_future_arrivals :
    ∀ fuel : Nat,
      (run fuel c1Init).future_processes = [c1P] ∧
      (run fuel c1Init).finished = [] ∧
      (run fuel c1Init).clock = 0 := by
  intro fuel
  have h : runCond c1Init = false := by decide
  rw [run_eq_self fuel c1Init h]
  exact ⟨by decide, rfl, rfl⟩

/-- C2 counterexample: on scenario S1 the run reaches quiescence with the
clock at 6 — not 5 as claimed — and P1's `finished` event is recorded at
time 3, not at the end of tick 2 (P2's at time 5, not 4). -/
theorem c2_counterexample :
    runCond c2Run = false ∧
    c2Run.clock = 6 ∧
    ¬ c2Run.clock = 5 ∧
    (c2Run.events.filter (fun e => e.event_type = "finished")).map
        (fun e => (e.time, e.process)) = [(3, some "P1"), (5, some "P2")] := by
  refine ⟨by decide, by decide, by decide, by decide⟩

/-- C2 amended: P1 occupies the CPU at the end of ticks 0-2 and P2 at the
end of ticks 3-4 (as claimed), but because `step` ticks CPUs before
dispatching, a process dispatched at tick t starts executing at tick
t+1: P1's `finished` event is recorded at time 3 and P2's at time 5, and
`run` returns at quiescence with the clock at 6. -/
theorem c2_amended :
    ((List.range 7).map
        (fun k => (stepN k c2Init).cpus.map (fun c => c.current.map Process.pid))) =
      [[none], [some "P1"], [some "P1"], [some "P1"],
        [some "P2"], [some "P2"], [none]] ∧
    (c2Run.events.filter (fun e => e.event_type = "finished")).map
        (fun e => (e.time, e.event_type, e.process)) =
      [(3, "finished", some "P1"), (5, "finished", some "P2")] ∧
    c2Run.finished.map Process.pid = ["P1", "P2"] ∧
    c2Run.clock = 6 ∧
    runCond c2Run = false := by
  refine ⟨by decide, by decide, by decide, by decide, by decide⟩

/-- C5 counterexample: under RR with quantum 3, `c5P` finishes its first
burst after its quantum has been decremented to 2; the `dispatch_cpu` at
time 2 puts it back on the CPU with `remaining_quantum` still 2, not
reset to its quantum 3 — dispatch does not reset the quantum. -/
theorem c5_counterexample :
    ((stepN 3 c5Init).events.filter (fun e => e.event_type = "dispatch_cpu")).map
        (fun e => (e.time, e.process)) = [(0, some "P1"), (2, some "P1")] ∧
    (stepN 3 c5Init).cpus.map
        (fun c => c.current.map (fun p => (p.remaining_quantum, p.quantum))) =
      [some (2, 3)] ∧
    ¬ (stepN 3 c5Init).cpus.map
        (fun c => c.current.map (fun p => (p.remaining_quantum, p.quantum))) =
      [some (3, 3)] := by
  refine ⟨by decide, by decide, by decide⟩

/-- C9: the scheduler is deterministic — the embedded step relation is a
pure function of the configuration (the Python code draws no randomness
and consults no external state during `step`), so two runs built from
the same process list, algorithm, CPU count and I/O count produce
identical structured event logs. -/
theorem c9_deterministic (fuel num_cpus num_ios : Nat) (algorithm : String)
    (ps : List Process) (s t : Scheduler)
    (hs : s = mkRun fuel num_cpus num_ios algorithm ps)
    (ht : t = mkRun fuel num_cpus num_ios algorithm ps) :
    s.events = t.events := by
  rw [hs, ht]

/-- Witness for C9 at a concrete configuration. -/
theorem c9_deterministic_witness :
    (mkRun 10 1 1 "RR" [c5P]).events = (mkRun 10 1 1 "RR" [c5P]).events :=
  c9_deterministic 10 1 1 "RR" [c5P] _ _ rfl rfl

/-- `remaining_burst_time` ignores `remaining_quantum`. -/
@[simp]
theorem rbt_update_quantum (p : Process) (v : Int) :
    remaining_burst_time { p with remaining_quantum := v } =
      remaining_burst_time p := rfl

/-- `remaining_burst_time` ignores the state tag. -/
@[simp]
theorem rbt_update_state (p : Process) (st : String) :
    remaining_burst_time { p with state := st } = remaining_burst_time p := rfl

/-- C4: under RR, after the CPU tick, a still-held process has its
`remaining_quantum` decremented; when it hits zero (or below) while the
process still has CPU work remaining, within that same step the CPU slot
is cleared, the process's quantum is reset to `quantum`, and it is
appended at the tail of the ready queue; otherwise it stays on the CPU
with the decremented quantum (so a process never sits on a CPU for more
than `quantum` consecutive ticks while it has CPU work left). -/
theorem c4_rr_quantum_expiry (s : Scheduler) (i : Nat) (c : CPU) (cur : Process)
    (halg : s.algorithm = "RR") (hc : c.current = some cur) :
    (cur.remaining_quantum - 1 ≤ 0 ∧ 0 < remaining_burst_time cur →
      (quantumPreemptCore s i c).cpus = s.cpus.set i { c with current := none } ∧
      (quantumPreemptCore s i c).ready_queue =
        s.ready_queue ++
          [{ cur with remaining_quantum := cur.quantum, state := "ready" }])
    ∧ ((0 < cur.remaining_quantum - 1 ∨ remaining_burst_time cur ≤ 0) →
      quantumPreemptCore s i c =
        setCPU s i
          { c with current := some { cur with remaining_quantum := cur.remaining_quantum - 1 } }) := by
  constructor
  · rintro ⟨h1, h2⟩
    simp only [quantumPreemptCore, halg, hc, reduceIte]
    rw [if_pos ⟨h1, h2⟩]
    constructor
    · simp [recordEvent, setCPU]
    · simp [recordEvent, setCPU, insertIntoReadyQueue, halg]
  · intro hneg
    have hcond : ¬ (({ cur with remaining_quantum := cur.remaining_quantum - 1 } :
        Process).remaining_quantum ≤ 0 ∧
        0 < remaining_burst_time
          { cur with remaining_quantum := cur.remaining_quantum - 1 }) := by
      simp only [rbt_update_quantum]
      rcases hneg with hneg | hneg
      · intro hcontra
        omega
      · intro hcontra
        omega
    simp only [quantumPreemptCore, halg, hc, reduceIte]
    rw [if_neg hcond]

/-- A process whose quantum has just expired with CPU work left. -/
def c4W : Process := mkProcess "W" [Burst.cpu 2] 0 1 0

/-- Witness for C4: applying the theorem at a concrete RR state. -/
theorem c4_rr_quantum_expiry_witness :
    (quantumPreemptCore c5Init 0 { cid := 0, current := some c4W }).ready_queue =
      c5Init.ready_queue ++
        [{ c4W with remaining_quantum := c4W.quantum, state := "ready" }] ∧
    (quantumPreemptCore c5Init 0 { cid := 0, current := some c4W }).cpus =
      c5Init.cpus.set 0
        { ({ cid := 0, current := some c4W } : CPU) with current := none } := by
  have h := (c4_rr_quantum_expiry c5Init 0 { cid := 0, current := some c4W } c4W
    (by decide) rfl).1 ⟨by decide, by decide⟩
  exact ⟨h.2, h.1⟩

theorem popMinBy_mem {α K : Type} [DecidableEq α] [LinearOrder K] (key : α → K)
    (q : List α) (p : α) (q' : List α) (h : popMinBy key q = some (p, q')) :
    p ∈ q := by
  cases q with
  | nil => simp [popMinBy] at h
  | cons x xs =>
    simp only [popMinBy, Option.some.injEq, Prod.mk.injEq] at h
    exact h.1 ▸ pyMinBy_mem key xs x

theorem selectProcessForCPU_mem (alg : String) (q : List Process) (p : Process)
    (q' : List Process) (h : selectProcessForCPU alg q = some (p, q')) :
    p ∈ q := by
  cases q with
  | nil => simp [selectProcessForCPU] at h
  | cons x xs =>
    simp only [selectProcessForCPU] at h
    split_ifs at h
    · obtain ⟨rfl, rfl⟩ : x = p ∧ xs = q' := by
        simpa using h
      exact List.mem_cons_self _ _
    · exact popMinBy_mem _ _ _ _ h
    · exact popMinBy_mem _ _ _ _ h
    · exact popMinBy_mem _ _ _ _ h
    · exact popMinBy_mem _ _ _ _ h
    · obtain ⟨rfl, rfl⟩ : x = p ∧ xs = q' := by
        simpa using h
      exact List.mem_cons_self _ _

/-- C5 amended, part of the dispatch path: the process a CPU dispatch
assigns is exactly the selected element of the ready queue with only its
state tag changed to running — `remaining_quantum` is left as it was in
the queue, both at the idle-CPU dispatch of step 6 and at the
SRTF / PriorityPreemptive same-tick dispatch (which goes through the
same `CPU.assign` with the selected process unchanged); the only place
`remaining_quantum` is reset to `quantum` is the RR quantum-expiry
preemption. -/
theorem c5_dispatch_keeps_quantum :
    (∀ (s : Scheduler) (i : Nat) (c : CPU) (p : Process) (q' : List Process),
      s.cpus.get? i = some c → c.current = none →
      selectProcessForCPU s.algorithm s.ready_queue = some (p, q') →
      (dispatchCPUAt s i).cpus =
        s.cpus.set i { c with current := some { p with state := "running" } } ∧
      ({ p with state := "running" } : Process).remaining_quantum =
        p.remaining_quantum ∧
      p ∈ s.ready_queue)
    ∧ (∀ (s : Scheduler) (i : Nat) (c : CPU) (cur : Process),
      s.algorithm = "RR" → c.current = some cur →
      cur.remaining_quantum - 1 ≤ 0 → 0 < remaining_burst_time cur →
      (quantumPreemptCore s i c).ready_queue =
        s.ready_queue ++
          [{ cur with remaining_quantum := cur.quantum, state := "ready" }]) := by
  constructor
  · intro s i c p q' hg hidle hsel
    refine ⟨?_, rfl, selectProcessForCPU_mem s.algorithm s.ready_queue p q' hsel⟩
    simp only [dispatchCPUAt, hg, hidle, CPU.is_busy, Option.isSome_none,
      Bool.false_eq_true, if_false, hsel, recordEvent, setCPU, CPU.assign]
  · intro s i c cur halg hc h1 h2
    simp only [quantumPreemptCore, halg, hc, reduceIte]
    rw [if_pos ⟨h1, h2⟩]
    simp [recordEvent, setCPU, insertIntoReadyQueue, halg]

/-- Witness for C5 amended: the dispatch part at a concrete FCFS state
(`c2Init` has P1 ready and an idle CPU) and the RR part at `c5Init`. -/
theorem c5_dispatch_keeps_quantum_witness :
    ((dispatchCPUAt c2Init 0).cpus =
      c2Init.cpus.set 0
        { ({ cid := 0, current := none } : CPU) with
            current := some { ({ c2P1 with state := "ready" } : Process) with state := "running" } }) ∧
    (quantumPreemptCore c5Init 0 { cid := 0, current := some c4W }).ready_queue =
      c5Init.ready_queue ++
        [{ c4W with remaining_quantum := c4W.quantum, state := "ready" }] := by
  constructor
  · exact (c5_dispatch_keeps_quantum.1 c2Init 0 { cid := 0, current := none }
      { c2P1 with state := "ready" } [] (by decide) rfl (by decide)).1
  · exact c5_dispatch_keeps_quantum.2 c5Init 0 { cid := 0, current := some c4W } c4W
      (by decide) rfl (by decide) (by decide)

theorem selectProcessForCPU_srtf (q : List Process) (hne : q ≠ []) :
    selectProcessForCPU "SRTF" q = popMinBy remaining_burst_time q := by
  cases q with
  | nil => exact absurd rfl hne
  | cons x xs => simp [selectProcessForCPU]

theorem selectProcessForCPU_pp (q : List Process) (hne : q ≠ []) :
    selectProcessForCPU "PriorityPreemptive" q = popMinBy (fun p => p.priority) q := by
  cases q with
  | nil => exact absurd rfl hne
  | cons x xs => simp [selectProcessForCPU]

theorem insertIntoReadyQueue_srtf (q : List Process) (p : Process) :
    insertIntoReadyQueue "SRTF" q p = insertRec remaining_burst_time p q := by
  simp [insertIntoReadyQueue, insertSortedBy_eq_insertRec]

theorem insertIntoReadyQueue_pp (q : List Process) (p : Process) :
    insertIntoReadyQueue "PriorityPreemptive" q p =
      insertRec (fun pr => pr.priority) p q := by
  simp [insertIntoReadyQueue, insertSortedBy_eq_insertRec]

/-- C3: under SRTF (and analogously under PriorityPreemptive), when a CPU
still holds a process after its tick and the best ready process has a
strictly smaller key (remaining burst time, resp. priority), the
preemption branch of the same step puts the running process (state
`ready`) back into the ready queue and assigns the minimum-key ready
process — the first one attaining the minimum — to that same CPU slot;
when the minimum key merely equals the running process's key, the branch
changes nothing. -/
theorem c3_preemptive_same_tick (s : Scheduler) (i : Nat) (c : CPU)
    (cur x : Process) (xs : List Process)
    (hq : s.ready_queue = x :: xs) (hc : c.current = some cur) :
    (s.algorithm = "SRTF" →
      (remaining_burst_time (pyMinBy remaining_burst_time x xs) <
          remaining_burst_time cur →
        (quantumPreemptCore s i c).cpus =
          s.cpus.set i
            { c with current := some ({ pyMinBy remaining_burst_time x xs with state := "running" }) } ∧
        { cur with state := "ready" } ∈ (quantumPreemptCore s i c).ready_queue) ∧
      (remaining_burst_time (pyMinBy remaining_burst_time x xs) =
          remaining_burst_time cur →
        quantumPreemptCore s i c = s))
    ∧ (s.algorithm = "PriorityPreemptive" →
      ((pyMinBy (fun p => p.priority) x xs).priority < cur.priority →
        (quantumPreemptCore s i c).cpus =
          s.cpus.set i
            { c with current := some ({ pyMinBy (fun p => p.priority) x xs with state := "running" }) } ∧
        { cur with state := "ready" } ∈ (quantumPreemptCore s i c).ready_queue) ∧
      ((pyMinBy (fun p => p.priority) x xs).priority = cur.priority →
        quantumPreemptCore s i c = s)) := by
  constructor
  · intro halg
    constructor
    · intro hlt
      have hsel := popMinBy_insertRec remaining_burst_time x
        ({ cur with state := "ready" }) xs (by simpa using hlt)
      have hcur : ({ cur with state := "ready" } : Process) ≠
          pyMinBy remaining_burst_time x xs := by
        intro he
        have heq : remaining_burst_time (pyMinBy remaining_burst_time x xs) =
            remaining_burst_time cur := by
          rw [← he]
          simp
        rw [heq] at hlt
        exact lt_irrefl _ hlt
      simp only [quantumPreemptCore, halg, hc, hq, reduceIte, setCPU,
        insertIntoReadyQueue_srtf]
      rw [if_pos hlt]
      simp only [selectProcessForCPU_srtf _ (insertRec_ne_nil _ _ _), hsel,
        recordEvent, CPU.assign, List.set_set]
      refine ⟨rfl, ?_⟩
      exact (List.mem_erase_of_ne hcur).mpr
        ((mem_insertRec _ _ _ (x :: xs)).mpr (Or.inl rfl))
    · intro heq
      have hnlt : ¬ remaining_burst_time (pyMinBy remaining_burst_time x xs) <
          remaining_burst_time cur := by
        rw [heq]
        exact lt_irrefl _
      simp only [quantumPreemptCore, halg, hc, hq, reduceIte, String.reduceEq]
      rw [if_neg hnlt]
  · intro halg
    constructor
    · intro hlt
      have hsel := popMinBy_insertRec (fun p : Process => p.priority) x
        ({ cur with state := "ready" }) xs (by simpa using hlt)
      have hcur : ({ cur with state := "ready" } : Process) ≠
          pyMinBy (fun p : Process => p.priority) x xs := by
        intro he
        have heq : (pyMinBy (fun p : Process => p.priority) x xs).priority =
            cur.priority := by
          rw [← he]
        rw [heq] at hlt
        exact lt_irrefl _ hlt
      simp only [quantumPreemptCore, halg, hc, hq, reduceIte, setCPU,
        insertIntoReadyQueue_pp]
      rw [if_pos hlt]
      simp only [selectProcessForCPU_pp _ (insertRec_ne_nil _ _ _), hsel,
        recordEvent, CPU.assign, List.set_set]
      refine ⟨rfl, ?_⟩
      exact (List.mem_erase_of_ne hcur).mpr
        ((mem_insertRec _ _ _ (x :: xs)).mpr (Or.inl rfl))
    · intro heq
      have hnlt : ¬ (pyMinBy (fun p : Process => p.priority) x xs).priority <
          cur.priority := by
        rw [heq]
        exact lt_irrefl _
      simp only [quantumPreemptCore, halg, hc, hq, reduceIte, String.reduceEq]
      rw [if_neg hnlt]

/-- A short ready process for the C3 witness. -/
def c3A : Process := mkProcess "A" [Burst.cpu 1] 0 4 0

/-- A long running process for the C3 witness. -/
def c3B : Process := mkProcess "B" [Burst.cpu 5] 0 4 0

/-- SRTF scheduler state whose ready queue holds only `c3A`. -/
def c3S : Scheduler := { Scheduler.init 1 1 "SRTF" with ready_queue := [c3A] }

/-- Witness for C3: with `c3B` (remaining 5) running and `c3A`
(remaining 1) ready under SRTF, the preemption branch swaps them in the
same step. -/
theorem c3_preemptive_same_tick_witness :
    (quantumPreemptCore c3S 0 { cid := 0, current := some c3B }).cpus =
      c3S.cpus.set 0
        { ({ cid := 0, current := some c3B } : CPU) with
            current := some ({ pyMinBy remaining_burst_time c3A ([] : List Process) with state := "running" }) } ∧
    { c3B with state := "ready" } ∈
      (quantumPreemptCore c3S 0 { cid := 0, current := some c3B }).ready_queue :=
  ((c3_preemptive_same_tick c3S 0 { cid := 0, current := some c3B } c3B c3A []
      rfl rfl).1 rfl).1 (by decide)

theorem insertIntoReadyQueue_fcfs (q : List Process) (p : Process) :
    insertIntoReadyQueue "FCFS" q p = insertRec (fun pr => pr.arrival_time) p q := by
  simp [insertIntoReadyQueue, insertSortedBy_eq_insertRec]

theorem insertIntoReadyQueue_sjf (q : List Process) (p : Process) :
    insertIntoReadyQueue "SJF" q p = insertRec keySJF p q := by
  simp [insertIntoReadyQueue, insertSortedBy_eq_insertRec]

theorem insertIntoReadyQueue_priority (q : List Process) (p : Process) :
    insertIntoReadyQueue "Priority" q p = insertRec (fun pr => pr.priority) p q := by
  simp [insertIntoReadyQueue, insertSortedBy_eq_insertRec]

theorem insertIntoReadyQueue_rr (q : List Process) (p : Process) :
    insertIntoReadyQueue "RR" q p = q ++ [p] := by
  simp [insertIntoReadyQueue]

theorem selectProcessForCPU_sjf (q : List Process) (hne : q ≠ []) :
    selectProcessForCPU "SJF" q = popMinBy keySJF q := by
  cases q with
  | nil => exact absurd rfl hne
  | cons x xs => simp [selectProcessForCPU]

theorem selectProcessForCPU_priority (q : List Process) (hne : q ≠ []) :
    selectProcessForCPU "Priority" q = popMinBy (fun p => p.priority) q := by
  cases q with
  | nil => exact absurd rfl hne
  | cons x xs => simp [selectProcessForCPU]

/-- C6: for every policy the ready-queue insertion scan uses a strict
comparison on the policy key (arrival time for FCFS, current CPU burst
for SJF, remaining burst time for SRTF, priority for the two priority
policies, none for RR): on a key-sorted queue the new process lands
after every element with a key less than or equal to its own — in
particular after every equal-key element — the queue stays sorted, and
selection always returns the head of the sorted queue, so equal-key
processes are selected in their insertion order. -/
theorem c6_stable_strict_insertion :
    (∀ (q : List Process) (p : Process),
      q.Sorted (fun a b => a.arrival_time ≤ b.arrival_time) →
        insertIntoReadyQueue "FCFS" q p =
          q.filter (fun a => decide (a.arrival_time ≤ p.arrival_time)) ++
            p :: q.filter (fun a => decide (p.arrival_time < a.arrival_time)) ∧
        (insertIntoReadyQueue "FCFS" q p).Sorted
          (fun a b => a.arrival_time ≤ b.arrival_time) ∧
        (∀ x xs, q = x :: xs → selectProcessForCPU "FCFS" q = some (x, xs)))
    ∧ (∀ (q : List Process) (p : Process),
      q.Sorted (fun a b => keySJF a ≤ keySJF b) →
        insertIntoReadyQueue "SJF" q p =
          q.filter (fun a => decide (keySJF a ≤ keySJF p)) ++
            p :: q.filter (fun a => decide (keySJF p < keySJF a)) ∧
        (insertIntoReadyQueue "SJF" q p).Sorted (fun a b => keySJF a ≤ keySJF b) ∧
        (∀ x xs, q = x :: xs → selectProcessForCPU "SJF" q = some (x, xs)))
    ∧ (∀ (q : List Process) (p : Process),
      q.Sorted (fun a b => remaining_burst_time a ≤ remaining_burst_time b) →
        insertIntoReadyQueue "SRTF" q p =
          q.filter (fun a => decide (remaining_burst_time a ≤ remaining_burst_time p)) ++
            p :: q.filter (fun a => decide (remaining_burst_time p < remaining_burst_time a)) ∧
        (insertIntoReadyQueue "SRTF" q p).Sorted
          (fun a b => remaining_burst_time a ≤ remaining_burst_time b) ∧
        (∀ x xs, q = x :: xs → selectProcessForCPU "SRTF" q = some (x, xs)))
    ∧ (∀ (q : List Process) (p : Process),
      q.Sorted (fun a b => a.priority ≤ b.priority) →
        insertIntoReadyQueue "Priority" q p =
          q.filter (fun a => decide (a.priority ≤ p.priority)) ++
            p :: q.filter (fun a => decide (p.priority < a.priority)) ∧
        (insertIntoReadyQueue "Priority" q p).Sorted (fun a b => a.priority ≤ b.priority) ∧
        (∀ x xs, q = x :: xs → selectProcessForCPU "Priority" q = some (x, xs)))
    ∧ (∀ (q : List Process) (p : Process),
      q.Sorted (fun a b => a.priority ≤ b.priority) →
        insertIntoReadyQueue "PriorityPreemptive" q p =
          q.filter (fun a => decide (a.priority ≤ p.priority)) ++
            p :: q.filter (fun a => decide (p.priority < a.priority)) ∧
        (insertIntoReadyQueue "PriorityPreemptive" q p).Sorted
          (fun a b => a.priority ≤ b.priority) ∧
        (∀ x xs, q = x :: xs →
          selectProcessForCPU "PriorityPreemptive" q = some (x, xs)))
    ∧ (∀ (q : List Process) (p : Process),
      insertIntoReadyQueue "RR" q p = q ++ [p] ∧
        (∀ x xs, q = x :: xs → selectProcessForCPU "RR" q = some (x, xs))) := by
  refine ⟨?_, ?_, ?_, ?_, ?_, ?_⟩
  · intro q p h
    rw [insertIntoReadyQueue_fcfs]
    refine ⟨insertRec_eq_filter _ p q h, insertRec_sorted _ p q h, ?_⟩
    rintro x xs rfl
    simp [selectProcessForCPU]
  · intro q p h
    rw [insertIntoReadyQueue_sjf]
    refine ⟨insertRec_eq_filter _ p q h, insertRec_sorted _ p q h, ?_⟩
    rintro x xs rfl
    rw [selectProcessForCPU_sjf _ (by simp)]
    exact popMinBy_sorted _ x xs h
  · intro q p h
    rw [insertIntoReadyQueue_srtf]
    refine ⟨insertRec_eq_filter _ p q h, insertRec_sorted _ p q h, ?_⟩
    rintro x xs rfl
    rw [selectProcessForCPU_srtf _ (by simp)]
    exact popMinBy_sorted _ x xs h
  · intro q p h
    rw [insertIntoReadyQueue_priority]
    refine ⟨insertRec_eq_filter _ p q h, insertRec_sorted _ p q h, ?_⟩
    rintro x xs rfl
    rw [selectProcessForCPU_priority _ (by simp)]
    exact popMinBy_sorted _ x xs h
  · intro q p h
    rw [insertIntoReadyQueue_pp]
    refine ⟨insertRec_eq_filter _ p q h, insertRec_sorted _ p q h, ?_⟩
    rintro x xs rfl
    rw [selectProcessForCPU_pp _ (by simp)]
    exact popMinBy_sorted _ x xs h
  · intro q p
    refine ⟨insertIntoReadyQueue_rr q p, ?_⟩
    rintro x xs rfl
    simp [selectProcessForCPU]

/-- Equal-arrival process for the C6 witness. -/
def c6A : Process := mkProcess "A" [Burst.cpu 2] 1 4 5

/-- Equal-arrival process for the C6 witness, inserted second. -/
def c6B : Process := mkProcess "B" [Burst.cpu 9] 2 4 5

/-- Witness for C6: inserting `c6B` (arrival 5) into the FCFS queue
`[c6A]` (same arrival 5) places it after `c6A`. -/
theorem c6_stable_strict_insertion_witness :
    insertIntoReadyQueue "FCFS" [c6A] c6B = [c6A, c6B] := by
  have h := (c6_stable_strict_insertion.1 [c6A] c6B (by simp)).1
  simpa using h

/-- A record with a negative CPU burst duration. -/
def c7Bad : RawRec :=
  { pid := "B", priority := 0, quantum := 4, arrival_time := 0,
    bursts := [RawBurst.cpu (-5)] }

/-- A record with a zero-length burst list. -/
def c7Empty : RawRec :=
  { pid := "E", priority := 0, quantum := 4, arrival_time := 0, bursts := [] }

/-- C7 counterexample: a record with a negative burst duration and a
record with an empty burst list are both loaded untouched — neither is
rejected, so the returned list is not `exactly the remaining valid
processes` (which would be empty here). -/
theorem c7_counterexample :
    (load_processes_from_json [c7Bad, c7Empty] none).map Process.pid = ["B", "E"] ∧
    (load_processes_from_json [c7Bad, c7Empty] none).map Process.bursts =
      [[Burst.cpu (-5)], []] ∧
    ¬ load_processes_from_json [c7Bad, c7Empty] none = [] := by
  refine ⟨by decide, by decide, by decide⟩

/-- C7 amended: the loader performs no validation at all — every record
up to the limit is converted into a process, preserving order and count;
only burst entries carrying neither a `cpu` nor an `io` key are silently
dropped from a process's burst list. -/
theorem c7_loader_accepts_everything :
    ∀ data : List RawRec,
      (load_processes_from_json data none).length = data.length ∧
      (load_processes_from_json data none).map Process.pid =
        data.map RawRec.pid := by
  intro data
  constructor
  · simp [load_processes_from_json]
  · simp [load_processes_from_json, mkProcess, Function.comp]

/-- Constant sample stream whose value 5.7 rounds to 6 but truncates
to 5. -/
def c8Samples : Nat → ℚ := fun _ => (57 : ℚ) / 10

/-- Two bare records for the generator counterexample. -/
def c8Procs : List GenProc :=
  [{ pid := "1", arrival_time := 0 }, { pid := "2", arrival_time := 0 }]

/-- C8 counterexample: with every Gaussian sample equal to 5.7, the
code's gap is `int(5.7) = 5` (truncation toward zero) while the spec's
formula `round(5.7) = 6` — the produced arrival times differ from the
claimed ones. -/
theorem c8_counterexample :
    (generate_processes c8Samples c8Procs).map GenProc.arrival_time = [0, 5] ∧
    (generate_processes_spec c8Samples c8Procs).map GenProc.arrival_time = [0, 6] ∧
    ¬ (generate_processes c8Samples c8Procs).map GenProc.arrival_time =
        (generate_processes_spec c8Samples c8Procs).map GenProc.arrival_time := by
  have hp : pyInt ((57 : ℚ) / 10) = 5 := by norm_num [pyInt]
  have hr : round ((57 : ℚ) / 10) = 6 := by norm_num [round_eq]
  have h1 : (generate_processes c8Samples c8Procs).map GenProc.arrival_time = [0, 5] := by
    simp [generate_processes, assignArrivals, sortGen, insertGen, c8Samples, c8Procs, hp]
  have h2 : (generate_processes_spec c8Samples c8Procs).map GenProc.arrival_time = [0, 6] := by
    simp [generate_processes_spec, assignArrivalsSpec, sortGen, insertGen, c8Samples,
      c8Procs, hr]
  refine ⟨h1, h2, ?_⟩
  rw [h1, h2]
  decide

/-- C8 amended: each per-process arrival gap is `max(0, int(sample))` —
truncation toward zero, not rounding — accumulated from 0, and the
returned list is sorted ascending by arrival time. -/
theorem c8_truncated_gaps_sorted_output :
    ∀ (samples : Nat → ℚ) (ps : List GenProc),
      (generate_processes samples ps).Sorted
        (fun a b => a.arrival_time ≤ b.arrival_time) ∧
      (assignArrivals samples ps 0 0).map GenProc.arrival_time =
        (List.range ps.length).map (fun k => gapSum samples 0 k) := by
  intro samples ps
  refine ⟨sortGen_sorted _, ?_⟩
  have h := assignArrivals_map samples ps 0 0
  simpa using h

/-- C10: the cumulative time starts at 0 and is advanced only after an
arrival is assigned, so the first generated process gets arrival time 0,
and (gaps being non-negative, sorting preserving membership) every
non-empty generated workload contains a process with arrival time
exactly 0. -/
theorem c10_first_arrival_zero (samples : Nat → ℚ) (ps : List GenProc)
    (hne : ps ≠ []) :
    (assignArrivals samples ps 0 0).head?.map GenProc.arrival_time = some 0 ∧
    ∃ p ∈ generate_processes samples ps, p.arrival_time = 0 := by
  cases ps with
  | nil => exact absurd rfl hne
  | cons p ps' =>
    refine ⟨rfl, { p with arrival_time := 0 }, ?_, rfl⟩
    rw [generate_processes]
    exact (mem_sortGen _ _).mpr (by simp [assignArrivals])

/-- Witness for C10 at a concrete input. -/
theorem c10_first_arrival_zero_witness :
    (assignArrivals c8Samples [{ pid := "w", arrival_time := 3 }] 0 0).head?.map
        GenProc.arrival_time = some 0 ∧
    ∃ p ∈ generate_processes c8Samples [{ pid := "w", arrival_time := 3 }],
      p.arrival_time = 0 :=
  c10_first_arrival_zero c8Samples [{ pid := "w", arrival_time := 3 }] (by simp)

end P02
